import Mathlib

/-!
# Conversation history manager — verification of `src/streamlit_app.py`

Shallow embedding of the history-management core of the Streamlit RAG chat
front-end: the token estimator `estimate_message_tokens`, the truncator
`limit_message_history`, and the validator `validate_message_history`,
together with proofs of the specified properties.
-/

namespace StreamlitApp

/-- A message `Part`, the tagged union underlying the `pydantic_ai` part
classes (`SystemPromptPart`, `UserPromptPart`, `TextPart`, `ToolCallPart`,
`ToolReturnPart`, `RetryPromptPart`).  Every variant except `toolCall`
carries a `content` string field; `toolCall` carries `tool_name` and
`args` only (it has no `content` attribute). -/
inductive Part where
  | systemPrompt (content : String)
  | userPrompt (content : String)
  | text (content : String)
  | toolCall (tool_name : String) (args : String)
  | toolReturn (tool_name : String) (content : String)
  | retryPrompt (content : String)
deriving DecidableEq, Repr

/-- An element of the Python history list.  `request`/`response` embed
`ModelRequest`/`ModelResponse` (each holding a list of parts);
`nonMessage` stands for any list element that is neither, on which the
`isinstance(msg, (ModelRequest, ModelResponse))` checks fail. -/
inductive Msg where
  | request (parts : List Part)
  | response (parts : List Part)
  | nonMessage
deriving DecidableEq, Repr

/-- `isinstance(part, ToolCallPart)`. -/
def Part.isToolCall : Part → Bool
  | .toolCall _ _ => true
  | _ => false

/-- `isinstance(part, ToolReturnPart)`. -/
def Part.isToolReturn : Part → Bool
  | .toolReturn _ _ => true
  | _ => false

/-- `len(str(part.content))` when `hasattr(part, 'content')`, else `0`
(the estimator skips parts without a `content` attribute; only
`toolCall` lacks one). -/
def Part.contentChars : Part → Nat
  | .systemPrompt c => c.length
  | .userPrompt c => c.length
  | .text c => c.length
  | .toolCall _ _ => 0
  | .toolReturn _ c => c.length
  | .retryPrompt c => c.length

/-- `estimate_message_tokens`: accumulate `len(str(part.content))` over the
parts of every `ModelRequest`/`ModelResponse` in the list (skipping other
elements and parts without a `content` attribute), then integer-divide the
character total by 4. -/
def estimate_message_tokens (messages : List Msg) : Nat :=
  (messages.foldl
    (fun total_chars msg =>
      match msg with
      | .request parts => parts.foldl (fun acc p => acc + p.contentChars) total_chars
      | .response parts => parts.foldl (fun acc p => acc + p.contentChars) total_chars
      | .nonMessage => total_chars)
    0) / 4

/-- Python slice `l[-k:]`.  For `k = 0` this is `l[0:]`, the whole list
(`-0 == 0` in Python); for `k ≥ 1` it is the suffix of the last `k`
elements (all of `l` when `k ≥ len(l)`). -/
def pySliceLast (l : List α) (k : Nat) : List α :=
  if k = 0 then l else l.drop (l.length - k)

/-- `limit_message_history`: if `len(messages) <= max_messages` return the
list unchanged, otherwise return the slice `messages[-max_messages:]`. -/
def limit_message_history (messages : List Msg) (max_messages : Nat) : List Msg :=
  if messages.length ≤ max_messages then messages
  else pySliceLast messages max_messages

/-- One iteration of the validator loop on message `msg` with pending
queue `tool_calls_stack`: returns the updated queue and whether the
message is appended to `validated_messages`.
The loop partitions `msg.parts` into `msg_tool_calls`, `msg_tool_returns`
and `other_parts` (embedded as three filters); a message with tool-call
parts pushes them onto the queue and is kept; otherwise a message with
tool-return parts is kept only when the queue is non-empty, popping one
front entry per tool-return part while the queue lasts
(`List.drop` of the return count); otherwise the message is kept exactly
when `other_parts` is non-empty.  Elements failing the
`isinstance(msg, (ModelRequest, ModelResponse))` check are skipped. -/
def validateStep (tool_calls_stack : List Part) (msg : Msg) : List Part × Bool :=
  match msg with
  | .nonMessage => (tool_calls_stack, false)
  | .request parts | .response parts =>
    let msg_tool_calls := parts.filter Part.isToolCall
    let msg_tool_returns := parts.filter Part.isToolReturn
    let other_parts := parts.filter fun p => !p.isToolCall && !p.isToolReturn
    if msg_tool_calls ≠ [] then
      (tool_calls_stack ++ msg_tool_calls, true)
    else if msg_tool_returns ≠ [] then
      if tool_calls_stack ≠ [] then
        (tool_calls_stack.drop msg_tool_returns.length, true)
      else
        (tool_calls_stack, false)
    else if other_parts ≠ [] then
      (tool_calls_stack, true)
    else
      (tool_calls_stack, false)

/-- The validator's forward pass over the messages, threading the pending
tool-call queue and emitting the kept messages in input order. -/
def validateGo (tool_calls_stack : List Part) : List Msg → List Msg
  | [] => []
  | msg :: rest =>
    let res := validateStep tool_calls_stack msg
    if res.2 then msg :: validateGo res.1 rest else validateGo res.1 rest

/-- `validate_message_history`: early-return an empty/falsy input, else run
the forward pass starting from an empty pending queue. -/
def validate_message_history (messages : List Msg) : List Msg :=
  if messages.isEmpty then messages
  else validateGo [] messages

/-- A message is classified as a tool-return message when it is a
request/response with no tool-call part and at least one tool-return
part (the `elif msg_tool_returns:` branch). -/
def isToolReturnMsg : Msg → Bool
  | .nonMessage => false
  | .request parts | .response parts =>
    (parts.filter Part.isToolCall).isEmpty &&
      !(parts.filter Part.isToolReturn).isEmpty

/-- Scans a message sequence with the validator's queue discipline and
checks that every tool-return-classified message is met with a non-empty
pending queue — i.e. that the sequence contains no orphaned tool-return
message. -/
def noOrphanReturns (tool_calls_stack : List Part) : List Msg → Bool
  | [] => true
  | msg :: rest =>
    (!isToolReturnMsg msg || !tool_calls_stack.isEmpty) &&
      noOrphanReturns (validateStep tool_calls_stack msg).1 rest

/-- The parts of a history element: the `parts` field of a
request/response, nothing for a non-message element. -/
def Msg.partsOf : Msg → List Part
  | .request parts => parts
  | .response parts => parts
  | .nonMessage => []

/-- The estimator as the spec words it: "Sum the character length of the
`content` field of every Part that exposes one, across every Message in
the given history", then "divide the total by 4 (integer division)".
Parts without a `content` field (tool calls) contribute zero characters
to the sum. -/
def spec_estimate_tokens (messages : List Msg) : Nat :=
  ((messages.map fun m => (m.partsOf.map Part.contentChars).sum).sum) / 4

/-- A history element whose parts are all non-tool parts, as the words of
the spec sentence "messages with only non-tool Parts" read: a
request/response none of whose parts is a tool-call or a tool-return
(vacuously true of an empty parts list). -/
def allNonToolMsg : Msg → Bool
  | .nonMessage => false
  | .request parts => parts.all fun p => ! p.isToolCall && ! p.isToolReturn
  | .response parts => parts.all fun p => ! p.isToolCall && ! p.isToolReturn

/-- A request/response with at least one part, all of them non-tool: such
a message always takes the validator's `elif other_parts:` branch and is
kept with the queue unchanged. -/
def isPlainMsg : Msg → Bool
  | .nonMessage => false
  | .request parts =>
      !parts.isEmpty && parts.all fun p => ! p.isToolCall && ! p.isToolReturn
  | .response parts =>
      !parts.isEmpty && parts.all fun p => ! p.isToolCall && ! p.isToolReturn

/-! ## Truncator lemmas -/

/-- `messages[-0:]` is the whole list, so the bound-zero truncation is the
identity. -/
theorem limit_message_history_zero (h : List Msg) :
    limit_message_history h 0 = h := by
  unfold limit_message_history pySliceLast
  split_ifs with h1 h2
  · rfl
  · rfl
  · exact absurd rfl h2

/-- For a positive bound the truncated history has length
`min (len h) max`. -/
theorem limit_message_history_length (h : List Msg) (max : Nat)
    (hpos : 1 ≤ max) :
    (limit_message_history h max).length = min h.length max := by
  unfold limit_message_history pySliceLast
  split_ifs with h1 h2
  · omega
  · omega
  · rw [List.length_drop]
    omega

/-- A history no longer than the bound is returned unchanged (shared
helper: the truncator's first branch). -/
theorem limit_identity_of_le (h : List Msg) (max : Nat)
    (hle : h.length ≤ max) :
    limit_message_history h max = h :=
  if_pos hle

/-- C6: a history no longer than the bound is returned unchanged. -/
theorem limit_message_history_identity (h : List Msg) (max : Nat)
    (hle : h.length ≤ max) :
    limit_message_history h max = h :=
  if_pos hle

/-- Witness for C6 at a concrete history of length 1 and bound 5. -/
theorem limit_message_history_identity_witness :
    limit_message_history [Msg.request [Part.text "hi"]] 5
      = [Msg.request [Part.text "hi"]] :=
  limit_message_history_identity [Msg.request [Part.text "hi"]] 5 (by decide)

/-- C7: the truncator is idempotent at every history and every bound. -/
theorem limit_message_history_idem (h : List Msg) (max : Nat) :
    limit_message_history (limit_message_history h max) max
      = limit_message_history h max := by
  rcases Nat.eq_zero_or_pos max with rfl | hpos
  · rw [limit_message_history_zero, limit_message_history_zero]
  · have hlen := limit_message_history_length h max hpos
    exact limit_identity_of_le _ max (by omega)

/-- C3 counterexample: at bound 0 and a one-message history, the returned
length is 1, not `min 1 0 = 0` (Python's `h[-0:]` is the whole list). -/
theorem limit_length_min_counterexample :
    ¬ ((limit_message_history [Msg.request [Part.text "hi"]] 0).length
        = min (([Msg.request [Part.text "hi"]] : List Msg).length) 0) := by
  decide

/-- C3 (amended to positive bounds): for `max ≥ 1` the truncated history
has length exactly `min (len h) max`, and when `len h > max` it is
precisely the suffix of the last `max` messages. -/
theorem limit_length_min_and_suffix (h : List Msg) (max : Nat)
    (hpos : 1 ≤ max) :
    (limit_message_history h max).length = min h.length max ∧
      (max < h.length →
        limit_message_history h max = h.drop (h.length - max)) := by
  refine ⟨limit_message_history_length h max hpos, fun hlt => ?_⟩
  unfold limit_message_history pySliceLast
  rw [if_neg (by omega), if_neg (by omega)]

/-- Witness for C3 (amended) at a two-message history and bound 1. -/
theorem limit_length_min_and_suffix_witness :
    (limit_message_history
        [Msg.request [Part.text "a"], Msg.response [Part.text "b"]] 1).length
      = min ([Msg.request [Part.text "a"],
              Msg.response [Part.text "b"]] : List Msg).length 1 ∧
    (1 < ([Msg.request [Part.text "a"],
           Msg.response [Part.text "b"]] : List Msg).length →
      limit_message_history
        [Msg.request [Part.text "a"], Msg.response [Part.text "b"]] 1
        = ([Msg.request [Part.text "a"],
            Msg.response [Part.text "b"]] : List Msg).drop
            (([Msg.request [Part.text "a"],
               Msg.response [Part.text "b"]] : List Msg).length - 1)) :=
  limit_length_min_and_suffix
    [Msg.request [Part.text "a"], Msg.response [Part.text "b"]] 1 (by decide)

/-- C10: at bound 0 a non-empty history is returned whole (Python's
`h[-0:]` slice), and the exact `min` length bound does hold for every
bound `≥ 1`. -/
theorem limit_zero_returns_all_and_min_needs_pos :
    (∀ h : List Msg, h ≠ [] → limit_message_history h 0 = h) ∧
      ∀ (h : List Msg) (max : Nat), 1 ≤ max →
        (limit_message_history h max).length = min h.length max :=
  ⟨fun h _ => limit_message_history_zero h,
   fun h max hpos => limit_message_history_length h max hpos⟩

/-- Witness for C10 at a concrete one-message history. -/
theorem limit_zero_returns_all_witness :
    limit_message_history [Msg.request [Part.text "hi"]] 0
        = [Msg.request [Part.text "hi"]] ∧
      (limit_message_history [Msg.request [Part.text "hi"]] 1).length
        = min ([Msg.request [Part.text "hi"]] : List Msg).length 1 :=
  ⟨limit_zero_returns_all_and_min_needs_pos.1 _ (by decide),
   limit_zero_returns_all_and_min_needs_pos.2 _ 1 (by decide)⟩

/-- C2: on the history [Request(tool-call A), Response(tool-return A),
Request(text "hi")], truncating to 2 then validating leaves exactly
[Request(text "hi")]: the slice keeps the lone tool-return and the text
request, and validation drops the orphaned tool-return. -/
theorem truncate_then_validate_scenario :
    limit_message_history
        [Msg.request [Part.toolCall "A" "args"],
         Msg.response [Part.toolReturn "A" "out"],
         Msg.request [Part.text "hi"]] 2
      = [Msg.response [Part.toolReturn "A" "out"],
         Msg.request [Part.text "hi"]] ∧
    validate_message_history
        (limit_message_history
          [Msg.request [Part.toolCall "A" "args"],
           Msg.response [Part.toolReturn "A" "out"],
           Msg.request [Part.text "hi"]] 2)
      = [Msg.request [Part.text "hi"]] := by
  decide

/-! ## Estimator lemmas -/

theorem foldl_contentChars (parts : List Part) (a : Nat) :
    parts.foldl (fun acc p => acc + p.contentChars) a
      = a + (parts.map Part.contentChars).sum := by
  induction parts generalizing a with
  | nil => simp
  | cons p rest ih => simp [ih, Nat.add_assoc]

theorem foldl_msgChars (messages : List Msg) (a : Nat) :
    messages.foldl
        (fun total_chars msg =>
          match msg with
          | .request parts =>
              parts.foldl (fun acc p => acc + p.contentChars) total_chars
          | .response parts =>
              parts.foldl (fun acc p => acc + p.contentChars) total_chars
          | .nonMessage => total_chars)
        a
      = a + (messages.map fun m => (m.partsOf.map Part.contentChars).sum).sum := by
  induction messages generalizing a with
  | nil => simp
  | cons m rest ih =>
    simp only [List.foldl_cons, ih, List.map_cons, List.sum_cons]
    cases m <;> simp [Msg.partsOf, foldl_contentChars, Nat.add_assoc]

/-- C8: the estimator equals the spec's sum-of-content-lengths divided by
4, and returns 0 on the empty history. -/
theorem estimate_message_tokens_spec :
    (∀ h : List Msg, estimate_message_tokens h = spec_estimate_tokens h) ∧
      estimate_message_tokens [] = 0 := by
  refine ⟨fun h => ?_, rfl⟩
  unfold estimate_message_tokens spec_estimate_tokens
  rw [foldl_msgChars]
  simp

/-! ## Validator lemmas -/

/-- A message the validator drops leaves the pending queue unchanged: the
orphan branch never pops, and the other drop branches do not touch the
queue. -/
theorem validateStep_stack_of_not_keep (s : List Part) (m : Msg)
    (hk : (validateStep s m).2 = false) : (validateStep s m).1 = s := by
  cases m with
  | nonMessage => rfl
  | request parts | response parts =>
    simp only [validateStep] at hk ⊢
    split_ifs at hk ⊢ <;> simp_all

/-- A tool-return-classified message is kept only when the pending queue
is non-empty. -/
theorem validateStep_keep_toolReturn (s : List Part) (m : Msg)
    (hm : isToolReturnMsg m = true) (hk : (validateStep s m).2 = true) :
    s ≠ [] := by
  cases m with
  | nonMessage => simp [isToolReturnMsg] at hm
  | request parts | response parts =>
    simp only [isToolReturnMsg, Bool.and_eq_true, List.isEmpty_iff,
      Bool.not_eq_true'] at hm
    simp only [validateStep] at hk
    rw [if_neg (by simp [hm.1])] at hk
    rw [if_pos (by simp [← List.isEmpty_iff, hm.2])] at hk
    split_ifs at hk with hs
    exact hs

/-- A kept message is a request/response with a non-empty parts list:
every keeping branch demands one of the three part buckets be
non-empty. -/
theorem validateStep_keep_shape (s : List Part) (m : Msg)
    (hk : (validateStep s m).2 = true) :
    ∃ parts, (m = .request parts ∨ m = .response parts) ∧ parts ≠ [] := by
  cases m with
  | nonMessage => simp [validateStep] at hk
  | request parts | response parts =>
    refine ⟨parts, by simp, ?_⟩
    rintro rfl
    simp [validateStep] at hk

/-- A message with at least one part, none of them a tool part, is always
kept and leaves the pending queue unchanged. -/
theorem validateStep_plain (s : List Part) (m : Msg)
    (hm : isPlainMsg m = true) : validateStep s m = (s, true) := by
  cases m with
  | nonMessage => simp [isPlainMsg] at hm
  | request parts | response parts =>
    simp only [isPlainMsg, Bool.and_eq_true, List.all_eq_true,
      Bool.not_eq_true', List.isEmpty_iff] at hm
    obtain ⟨hne, hall⟩ := hm
    have hc : parts.filter Part.isToolCall = [] := by
      rw [List.filter_eq_nil_iff]
      intro p hp
      have := hall p hp
      simp_all
    have hr : parts.filter Part.isToolReturn = [] := by
      rw [List.filter_eq_nil_iff]
      intro p hp
      have := hall p hp
      simp_all
    have hne2 : parts ≠ [] := fun hnil => by simp [hnil] at hne
    have ho : parts.filter (fun p => !p.isToolCall && !p.isToolReturn) ≠ [] := by
      rw [Ne, List.filter_eq_nil_iff]
      push_neg
      rcases List.exists_mem_of_ne_nil parts hne2 with ⟨p, hp⟩
      exact ⟨p, hp, by simp [hall p hp]⟩
    simp only [validateStep]
    rw [if_neg (by simp [hc]), if_neg (by simp [hr]), if_pos ho]

/-- Unfolding equation for the validator pass on a non-empty list. -/
theorem validateGo_cons (s : List Part) (m : Msg) (rest : List Msg) :
    validateGo s (m :: rest)
      = if (validateStep s m).2 then
          m :: validateGo (validateStep s m).1 rest
        else validateGo (validateStep s m).1 rest := rfl

/-- The validator pass emits a subsequence of its input: messages are
kept or dropped in place, never reordered or duplicated. -/
theorem validateGo_sublist (msgs : List Msg) (s : List Part) :
    (validateGo s msgs).Sublist msgs := by
  induction msgs generalizing s with
  | nil => exact List.Sublist.refl []
  | cons m rest ih =>
    rw [validateGo_cons]
    split_ifs
    · exact (ih _).cons₂ m
    · exact (ih _).cons m

/-- Every message of the input with at least one part and no tool part
appears in the validator pass's output. -/
theorem validateGo_mem_of_plain (msgs : List Msg) (s : List Part) (m : Msg)
    (hmem : m ∈ msgs) (hm : isPlainMsg m = true) : m ∈ validateGo s msgs := by
  induction msgs generalizing s with
  | nil => cases hmem
  | cons m0 rest ih =>
    rw [validateGo_cons]
    rcases List.mem_cons.mp hmem with rfl | hmem2
    · rw [validateStep_plain s m hm]
      simp
    · split_ifs
      · exact List.mem_cons_of_mem _ (ih _ hmem2)
      · exact ih _ hmem2

/-- Every message emitted by the validator pass is a request/response
with a non-empty parts list. -/
theorem validateGo_mem_shape (msgs : List Msg) (s : List Part) (m : Msg)
    (hmem : m ∈ validateGo s msgs) :
    ∃ parts, (m = .request parts ∨ m = .response parts) ∧ parts ≠ [] := by
  induction msgs generalizing s with
  | nil => cases hmem
  | cons m0 rest ih =>
    rw [validateGo_cons] at hmem
    by_cases hk : (validateStep s m0).2 = true
    · rw [if_pos hk] at hmem
      rcases List.mem_cons.mp hmem with rfl | hmem2
      · exact validateStep_keep_shape s m hk
      · exact ih _ hmem2
    · rw [if_neg hk] at hmem
      exact ih _ hmem

/-- Rescanning the validator pass's own output with the same starting
queue finds no orphaned tool-return: dropped messages never change the
queue, so every kept tool-return message still meets a non-empty queue. -/
theorem noOrphanReturns_validateGo (msgs : List Msg) (s : List Part) :
    noOrphanReturns s (validateGo s msgs) = true := by
  induction msgs generalizing s with
  | nil => rfl
  | cons m rest ih =>
    rw [validateGo_cons]
    by_cases hk : (validateStep s m).2 = true
    · rw [if_pos hk]
      rw [noOrphanReturns, Bool.and_eq_true]
      refine ⟨?_, ih _⟩
      by_cases hr : isToolReturnMsg m = true
      · have hs := validateStep_keep_toolReturn s m hr hk
        simp [hr, List.isEmpty_iff, hs]
      · simp [Bool.not_eq_true] at hr
        simp [hr]
    · rw [if_neg hk]
      rw [validateStep_stack_of_not_keep s m (Bool.not_eq_true _ ▸ hk)]
      exact ih _

/-- The validator pass is idempotent for any fixed starting queue. -/
theorem validateGo_idem (msgs : List Msg) (s : List Part) :
    validateGo s (validateGo s msgs) = validateGo s msgs := by
  induction msgs generalizing s with
  | nil => rfl
  | cons m rest ih =>
    rw [validateGo_cons]
    by_cases hk : (validateStep s m).2 = true
    · rw [if_pos hk, validateGo_cons, if_pos hk, ih]
    · rw [if_neg hk]
      rw [validateStep_stack_of_not_keep s m (Bool.not_eq_true _ ▸ hk)]
      exact ih _

/-! ## Claim theorems for the validator -/

/-- C1: the validator's output contains no orphaned tool-return message:
replaying the pending-queue discipline over the output (starting, as the
validator does, from an empty queue), every message classified as a
tool-return is met with a non-empty queue of pending tool-calls; since
dropped messages never alter the queue, that queue coincides with the one
accumulated from the earlier messages of the original history. -/
theorem validate_no_orphan_returns (h : List Msg) :
    noOrphanReturns [] (validate_message_history h) = true := by
  unfold validate_message_history
  split_ifs with he
  · rw [List.isEmpty_iff.mp he]
    rfl
  · exact noOrphanReturns_validateGo h []

/-- C4: the validator is idempotent. -/
theorem validate_message_history_idem (h : List Msg) :
    validate_message_history (validate_message_history h)
      = validate_message_history h := by
  rcases h with _ | ⟨m, rest⟩
  · rfl
  · have h1 : validate_message_history (m :: rest) = validateGo [] (m :: rest) :=
      rfl
    rw [h1]
    unfold validate_message_history
    split_ifs with he
    · rfl
    · exact validateGo_idem (m :: rest) []

/-- C5 counterexample: a request whose (empty) parts list vacuously
contains only non-tool parts is nevertheless dropped by the validator,
so it does not appear in the output. -/
theorem validate_preserves_nontool_counterexample :
    Msg.request [] ∈ ([Msg.request []] : List Msg) ∧
      allNonToolMsg (Msg.request []) = true ∧
      Msg.request [] ∉ validate_message_history [Msg.request []] := by
  decide

/-- C5 (amended to messages with at least one part): the validator is a
stable filter — its output is a subsequence of the input — and every
request/response with a non-empty parts list none of which is a tool
part appears in the output. -/
theorem validate_plain_preserved_and_stable (h : List Msg) :
    (validate_message_history h).Sublist h ∧
      ∀ m ∈ h, isPlainMsg m = true → m ∈ validate_message_history h := by
  unfold validate_message_history
  split_ifs with he
  · exact ⟨List.Sublist.refl h, fun m hm _ => hm⟩
  · exact ⟨validateGo_sublist h [],
      fun m hm hp => validateGo_mem_of_plain h [] m hm hp⟩

/-- Witness for C5 (amended) at a one-message history. -/
theorem validate_plain_preserved_witness :
    (validate_message_history [Msg.request [Part.text "hi"]]).Sublist
        [Msg.request [Part.text "hi"]] ∧
      Msg.request [Part.text "hi"]
        ∈ validate_message_history [Msg.request [Part.text "hi"]] :=
  ⟨(validate_plain_preserved_and_stable [Msg.request [Part.text "hi"]]).1,
   (validate_plain_preserved_and_stable [Msg.request [Part.text "hi"]]).2
     (Msg.request [Part.text "hi"]) (by decide) (by decide)⟩

/-- C9: an element appears in the validator's output only if it is a
request/response whose parts list is non-empty; non-message elements and
empty-parts requests/responses are silently dropped. -/
theorem validate_output_shape (h : List Msg) (m : Msg)
    (hmem : m ∈ validate_message_history h) :
    ∃ parts, (m = Msg.request parts ∨ m = Msg.response parts) ∧ parts ≠ [] := by
  unfold validate_message_history at hmem
  split_ifs at hmem with he
  · rw [List.isEmpty_iff.mp he] at hmem
    cases hmem
  · exact validateGo_mem_shape h [] m hmem

/-- Witness for C9: a kept concrete message indeed is a request with a
non-empty parts list. -/
theorem validate_output_shape_witness :
    ∃ parts,
      (Msg.request [Part.text "hi"] = Msg.request parts ∨
        Msg.request [Part.text "hi"] = Msg.response parts) ∧ parts ≠ [] :=
  validate_output_shape [Msg.request [Part.text "hi"]]
    (Msg.request [Part.text "hi"]) (by decide)

end StreamlitApp
